import Mathlib

/-!
# Equation splitting (`a.cpp`): `split_exp` and `solution`

A shallow embedding of the two functions of `a.cpp` together with the parts of
the C++ standard library they call (`std::string::substr`, `std::string::find`,
`std::vector::operator[]`, `std::stoi`), followed by theorems about them.

Modelling conventions.

* A `std::string` is a `List Char`; a `std::vector<std::string>` is a list of those.
  A `std::string` is shorter than `2 ^ 63` characters; the theorems that need such a
  bound carry it as a hypothesis.
* A C++ exception is the `error` side of `Except Err`.
* `int` is the 32-bit two's complement integer: the value of an `int` expression is the
  mathematical value wrapped into `[-2 ^ 31, 2 ^ 31)` by `int_wrap`, which is what the
  compiled program computes when the counter of `split_exp` runs past `2147483647`.
* `size_t` is the 64-bit unsigned integer; an `int` passed where a `size_t` is expected
  is converted by `to_size_t`, modulo `2 ^ 64`.
-/

namespace SplitExp

/-- A `std::string`, as its sequence of characters. -/
abbrev Str := List Char

/-- The ways a call can fail: the two exceptions thrown by the library calls, and
an access `v[k]` to a vector with `k` outside its bounds. -/
inductive Err where
  | out_of_range
  | invalid_argument
  | index_out_of_bounds
  deriving DecidableEq, Repr

deriving instance DecidableEq for Except

/-- The value of an `int` expression whose mathematical value is `z`: 32-bit two's
complement, wrapping around on overflow. -/
def int_wrap (z : Int) : Int := (z + 2147483648) % 4294967296 - 2147483648

/-- Conversion of an `int` value to the 64-bit unsigned `size_t`: a non-negative
value is unchanged, a negative one wraps around modulo `2 ^ 64`. -/
def to_size_t (z : Int) : Nat :=
  if 0 ≤ z then z.toNat else (z % 18446744073709551616).toNat

/-- The call `s.substr(pos, n)`: throws `out_of_range` when `pos > s.size()`, and
otherwise yields the `min n (s.size() - pos)` characters from `pos` on. -/
def substr (s : Str) (pos n : Nat) : Except Err Str :=
  if pos > s.length then .error .out_of_range
  else .ok ((s.drop pos).take (min n (s.length - pos)))

/-- The `for` loop of `split_exp`, from the counter value `i` on: while
`i < exp.length()` (the `int` counter converted to `size_t`), leave at `exp[i] == sp`,
else `i++`. The value is the final `i`; `fuel` bounds the number of iterations. -/
def scan_loop (exp : Str) (sp : Char) : Nat → Int → Int
  | 0, i => i
  | fuel + 1, i =>
    if to_size_t i < exp.length then
      if exp[to_size_t i]? = some sp then i
      else scan_loop exp sp fuel (int_wrap (i + 1))
    else i

/-- The `for` loop of `split_exp` started at `i`. The counter has `2 ^ 32` values and
the loop condition fails at `i = -1` for every length below `2 ^ 64`, so `2 ^ 32`
iterations are enough for the loop to end. -/
def scan (sp : Char) (exp : Str) (i : Int) : Int := scan_loop exp sp 4294967296 i

/-- The function `split_exp(exp, sp)`. -/
def split_exp (exp : Str) (sp : Char) : Except Err (List Str) := do
  let res : List Str := []
  let i : Int := scan sp exp 0
  let l ← substr exp 0 (to_size_t (int_wrap (i - 1)))
  let res := res ++ [l]
  let r ← substr exp (to_size_t (int_wrap (i + 2))) exp.length
  let res := res ++ [r]
  pure res

/-- The test `s.find(c) != string::npos`. -/
def find_ne_npos (s : Str) (c : Char) : Bool := s.contains c

/-- The access `v[k]` of a vector. -/
def at_index (v : List Str) (k : Nat) : Except Err Str :=
  match v[k]? with
  | some x => .ok x
  | none => .error .index_out_of_bounds

/-- The predicate `isspace` of the C locale. -/
def isspace (c : Char) : Bool :=
  c = ' ' || (9 ≤ c.toNat && c.toNat ≤ 13)

/-- The predicate `isdigit`. -/
def isdigit (c : Char) : Bool := 48 ≤ c.toNat && c.toNat ≤ 57

/-- Accumulation of decimal digits, most significant first, as `strtol` does. -/
def accumulate (ds : Str) : Nat :=
  ds.foldl (fun acc d => acc * 10 + (d.toNat - 48)) 0

/-- The call `std::stoi(s)` (base 10): white space is skipped, an optional sign is
read, then the longest run of decimal digits; what follows the digits is ignored.
No digit at all throws `invalid_argument`; a value outside the range of a 32-bit
`int` throws `out_of_range`. -/
def stoi (s : Str) : Except Err Int :=
  let s1 := s.dropWhile isspace
  let neg : Bool := s1.head? = some '-'
  let s2 := if s1.head? = some '-' ∨ s1.head? = some '+' then s1.tail else s1
  let ds := s2.takeWhile isdigit
  if ds = [] then .error .invalid_argument
  else
    let v : Int := if neg then -(accumulate ds : Int) else (accumulate ds : Int)
    if v < -2147483648 ∨ 2147483647 < v then .error .out_of_range
    else .ok v

/-- The local variables of one iteration of the loop of `solution`, at the end of
the loop body. -/
structure Locals where
  parts : List Str
  left : List Str
  adder : Char
  first : Int
  second : Int
  result : Int
  deriving DecidableEq, Repr

/-- The `if`/`else` of the loop body of `solution`: the split of `parts[0]` on the
detected operator, with the final value of `adder`. -/
def split_left (p0 : Str) : Except Err (List Str) × Char :=
  let adder := '+'
  if find_ne_npos p0 '+' then
    (split_exp p0 '+', adder)
  else
    (split_exp p0 '-', '-')

/-- One iteration of the loop of `solution`, for the expression `ex`. -/
def loop_body (ex : Str) : Except Err Locals := do
  let parts ← split_exp ex '='
  let p0 ← at_index parts 0
  let left ← (split_left p0).1
  let adder := (split_left p0).2
  let first ← stoi (← at_index left 0)
  let second ← stoi (← at_index left 1)
  let result ← stoi (← at_index parts 1)
  pure ⟨parts, left, adder, first, second, result⟩

/-- The loop of `solution` over the remaining expressions; `answer` is never
changed by the loop body. -/
def solution_loop : List Str → List Str → Except Err (List Str)
  | [], answer => .ok answer
  | ex :: rest, answer => do
    let _ ← loop_body ex
    solution_loop rest answer

/-- The function `solution(expressions)`. -/
def solution (expressions : List Str) : Except Err (List Str) :=
  solution_loop expressions []

/-! ## The forms of input the properties speak about -/

/-- The first occurrence of `c` in `s` is at index `i`. -/
def FirstAt (s : Str) (c : Char) (i : Nat) : Prop :=
  s[i]? = some c ∧ ∀ j, j < i → s[j]? ≠ some c

/-- A non-empty string of decimal digits. -/
def IsDigits (t : Str) : Prop := t ≠ [] ∧ ∀ ch ∈ t, isdigit ch = true

instance (t : Str) : Decidable (IsDigits t) := by
  unfold IsDigits
  infer_instance

/-- The value of a string of decimal digits, most significant digit first. -/
def decimal_value (t : Str) : Nat :=
  Nat.ofDigits 10 (t.reverse.map (fun ch => ch.toNat - 48))

/-- The expression `A ++ " " ++ [op] ++ " " ++ B ++ " = " ++ C`. -/
def equation (A : Str) (op : Char) (B C : Str) : Str :=
  A ++ " ".toList ++ [op] ++ " ".toList ++ B ++ " = ".toList ++ C

/-- An expression `"A op B = C"` with `op` one of `+`, `-` and `A`, `B`, `C` non-empty
strings of decimal digits whose values fit in a 32-bit signed `int`, the operands short
enough for the index of `=` plus `2` to fit in an `int`. -/
def WellFormed (x : Str) : Prop :=
  ∃ (A B C : Str) (op : Char), (op = '+' ∨ op = '-') ∧
    IsDigits A ∧ IsDigits B ∧ IsDigits C ∧
    decimal_value A ≤ 2147483647 ∧ decimal_value B ≤ 2147483647 ∧
    decimal_value C ≤ 2147483647 ∧ A.length + B.length + 6 ≤ 2147483647 ∧
    x = equation A op B C

/-- The digits that `stoi` reads from a token without sign: the longest run of
decimal digits after the leading white space. -/
def leading_digits (t : Str) : Str := (t.dropWhile isspace).takeWhile isdigit

/-- An operand or result token: non-empty, without a space and without any of the
characters `+`, `-`, `=`. -/
def IsToken (t : Str) : Prop := t ≠ [] ∧ ' ' ∉ t ∧ '+' ∉ t ∧ '-' ∉ t ∧ '=' ∉ t

instance (t : Str) : Decidable (IsToken t) := by
  unfold IsToken
  infer_instance

/-- The token does not begin, after optional white space, with a decimal digit. -/
def NoLeadingDigit (t : Str) : Prop := leading_digits t = []

/-- The token begins, after optional white space, with a run of decimal digits whose
value is at most `2147483647`. -/
def LeadingInRange (t : Str) : Prop :=
  leading_digits t ≠ [] ∧ decimal_value (leading_digits t) ≤ 2147483647

/-- The left side `"-" ++ A ++ " - " ++ B`: a negative first operand and a
subtraction. -/
def negative_left_side (A B : Str) : Str := "-".toList ++ A ++ " - ".toList ++ B

/-- The expression `"-" ++ A ++ " - " ++ B ++ " = " ++ C`. -/
def negative_equation (A B C : Str) : Str :=
  "-".toList ++ A ++ " - ".toList ++ B ++ " = ".toList ++ C

/-- The string of `n` characters `ch`, as built by `std::string(n, ch)`. -/
def repeated (n : Nat) (ch : Char) : Str := List.replicate n ch

/-! ## Lemmas on the scan and on `split_exp` -/

theorem indexOf_of_firstAt {s : Str} {c : Char} {i : Nat} (h : FirstAt s c i) :
    s.indexOf c = i := by
  induction s generalizing i with
  | nil => simp [FirstAt] at h
  | cons x rest ih =>
    obtain ⟨hi, hfirst⟩ := h
    by_cases hx : x = c
    · subst hx
      cases i with
      | zero => simp
      | succ k => exact absurd (by simp) (hfirst 0 (Nat.succ_pos k))
    · cases i with
      | zero => simp at hi; exact absurd hi hx
      | succ k =>
        rw [List.indexOf_cons_ne _ hx]
        have hk : FirstAt rest c k := by
          refine ⟨by simpa using hi, fun j hj => ?_⟩
          simpa using hfirst (j + 1) (Nat.succ_lt_succ hj)
        rw [ih hk]

theorem firstAt_indexOf {s : Str} {c : Char} (h : c ∈ s) : FirstAt s c (s.indexOf c) := by
  induction s with
  | nil => simp at h
  | cons x rest ih =>
    by_cases hx : x = c
    · subst hx
      refine ⟨by simp, fun j hj => ?_⟩
      simp at hj
    · have hc : c ∈ rest := by
        rcases List.mem_cons.mp h with h1 | h1
        · exact absurd h1.symm hx
        · exact h1
      obtain ⟨h1, h2⟩ := ih hc
      rw [List.indexOf_cons_ne _ hx]
      refine ⟨by simpa using h1, fun j hj => ?_⟩
      cases j with
      | zero => simpa using hx
      | succ k => simpa using h2 k (Nat.lt_of_succ_lt_succ hj)

theorem getElem?_indexOf {s : Str} {c : Char} (h : s.indexOf c < s.length) :
    s[s.indexOf c]? = some c :=
  (firstAt_indexOf (List.indexOf_lt_length.mp h)).1

theorem getElem?_ne_of_lt_indexOf {s : Str} {c : Char} {j : Nat} (h : j < s.indexOf c) :
    s[j]? ≠ some c := by
  intro hj
  have hmem : c ∈ s := List.getElem?_mem hj
  exact (firstAt_indexOf hmem).2 j h hj

theorem int_wrap_of_range {z : Int} (h1 : -2147483648 ≤ z) (h2 : z ≤ 2147483647) :
    int_wrap z = z := by
  unfold int_wrap
  omega

theorem to_size_t_natCast (j : Nat) : to_size_t (j : Int) = j := by
  unfold to_size_t
  rw [if_pos (by omega)]
  omega

theorem to_size_t_neg {z : Int} (h : z < 0) (h1 : -18446744073709551616 ≤ z) :
    (to_size_t z : Int) = z + 18446744073709551616 := by
  unfold to_size_t
  rw [if_neg (by omega)]
  omega

/-- The loop stops at the first occurrence of the separator, or at the end of the
string, when the counter gets there without overflow. -/
theorem scan_loop_found (s : Str) (c : Char) (hk : s.indexOf c ≤ 2147483647) :
    ∀ (fuel j : Nat), j ≤ s.indexOf c → s.indexOf c - j < fuel →
      scan_loop s c fuel (j : Int) = (s.indexOf c : Int) := by
  intro fuel
  induction fuel with
  | zero =>
    intro j _ hf
    omega
  | succ f ih =>
    intro j hj hf
    have hle : s.indexOf c ≤ s.length := List.indexOf_le_length
    simp only [scan_loop, to_size_t_natCast]
    by_cases hjn : j < s.length
    · rw [if_pos hjn]
      by_cases hjk : j = s.indexOf c
      · have hget : s[j]? = some c := by
          rw [hjk]
          exact getElem?_indexOf (by omega)
        rw [if_pos hget, hjk]
      · have hlt : j < s.indexOf c := by omega
        rw [if_neg (getElem?_ne_of_lt_indexOf hlt)]
        have hw : int_wrap ((j : Int) + 1) = ((j + 1 : Nat) : Int) := by
          rw [int_wrap_of_range (by omega) (by omega)]
          omega
        rw [hw]
        exact ih (j + 1) (by omega) (by omega)
    · rw [if_neg hjn]
      have : j = s.indexOf c := by omega
      rw [this]

/-- The loop on a string with no separator among its first `2 ^ 31` characters: the
counter overflows to `-2 ^ 31`, which as a `size_t` is not below the length. -/
theorem scan_loop_wrap (s : Str) (c : Char) (hk : 2147483647 < s.indexOf c)
    (hn : s.length ≤ 18446744071562067968) :
    ∀ (fuel j : Nat), j ≤ 2147483647 → 2147483648 - j < fuel →
      scan_loop s c fuel (j : Int) = -2147483648 := by
  intro fuel
  induction fuel with
  | zero =>
    intro j _ hf
    omega
  | succ f ih =>
    intro j hj hf
    have hle : s.indexOf c ≤ s.length := List.indexOf_le_length
    simp only [scan_loop, to_size_t_natCast]
    rw [if_pos (by omega), if_neg (getElem?_ne_of_lt_indexOf (by omega))]
    by_cases hmax : j = 2147483647
    · have hw : int_wrap ((j : Int) + 1) = -2147483648 := by
        unfold int_wrap
        omega
      rw [hw]
      cases f with
      | zero => omega
      | succ g =>
        have hs : to_size_t (-2147483648) = 18446744071562067968 := by decide
        simp only [scan_loop, hs]
        rw [if_neg (by omega)]
    · have hw : int_wrap ((j : Int) + 1) = ((j + 1 : Nat) : Int) := by
        rw [int_wrap_of_range (by omega) (by omega)]
        omega
      rw [hw]
      exact ih (j + 1) (by omega) (by omega)

theorem scan_of_small (s : Str) (c : Char) (hk : s.indexOf c ≤ 2147483647) :
    scan c s 0 = (s.indexOf c : Int) := by
  have := scan_loop_found s c hk 4294967296 0 (Nat.zero_le _) (by omega)
  simpa [scan] using this

theorem scan_of_large (s : Str) (c : Char) (hk : 2147483647 < s.indexOf c)
    (hn : s.length ≤ 18446744071562067968) :
    scan c s 0 = -2147483648 := by
  have := scan_loop_wrap s c hk hn 4294967296 0 (Nat.zero_le _) (by omega)
  simpa [scan] using this


theorem to_size_t_pred_zero : to_size_t ((0 : Nat) - 1 : Int) = 18446744073709551615 := by
  decide

theorem to_size_t_pred_pos {i : Nat} (h : 1 ≤ i) : to_size_t ((i : Int) - 1) = i - 1 := by
  unfold to_size_t
  rw [if_pos (by omega)]
  omega

/-- The two calls of `substr` in `split_exp`: the first one cannot throw. -/
theorem split_exp_unfold (s : Str) (c : Char) :
    split_exp s c =
      if to_size_t (int_wrap (scan c s 0 + 2)) > s.length then .error .out_of_range
      else .ok [s.take (min (to_size_t (int_wrap (scan c s 0 - 1))) s.length),
                s.drop (to_size_t (int_wrap (scan c s 0 + 2)))] := by
  simp only [split_exp, substr, bind, Except.bind, pure, Except.pure, List.nil_append,
    List.drop_zero, Nat.sub_zero]
  have h0 : ¬ (0 > s.length) := by omega
  rw [if_neg h0]
  by_cases h : to_size_t (int_wrap (scan c s 0 + 2)) > s.length
  · simp [h]
  · simp only [h, if_false]
    have : (s.drop (to_size_t (int_wrap (scan c s 0 + 2)))).take
        (min s.length (s.length - to_size_t (int_wrap (scan c s 0 + 2))))
        = s.drop (to_size_t (int_wrap (scan c s 0 + 2))) := by
      apply List.take_of_length_le
      simp
    rw [this]
    rfl

/-- What `split_exp` computes when `i + 2` does not overflow, in terms of the index of
the first occurrence of the separator (the length of the string when there is none). -/
theorem split_exp_eq (s : Str) (c : Char) (hk : s.indexOf c + 2 ≤ 2147483647) :
    split_exp s c =
      if s.indexOf c + 2 > s.length then .error .out_of_range
      else .ok [s.take (min (to_size_t ((s.indexOf c : Int) - 1)) s.length),
                s.drop (s.indexOf c + 2)] := by
  have h2 : to_size_t (int_wrap ((s.indexOf c : Int) + 2)) = s.indexOf c + 2 := by
    rw [int_wrap_of_range (by omega) (by omega)]
    exact to_size_t_natCast (s.indexOf c + 2)
  rw [split_exp_unfold, scan_of_small s c (by omega), h2,
    int_wrap_of_range (by omega) (by omega)]

/-- When `i + 2` overflows, the start position of the right part is beyond the end of
the string and `substr` throws. -/
theorem split_exp_overflow (s : Str) (c : Char) (hk : 2147483647 < s.indexOf c + 2)
    (hn : s.length < 9223372036854775808) :
    split_exp s c = .error .out_of_range := by
  have hpos : s.length < to_size_t (int_wrap (scan c s 0 + 2)) := by
    by_cases hsmall : s.indexOf c ≤ 2147483647
    · rw [scan_of_small s c hsmall]
      have hw : int_wrap ((s.indexOf c : Int) + 2) = (s.indexOf c : Int) + 2 - 4294967296 := by
        unfold int_wrap
        omega
      have := to_size_t_neg (z := (s.indexOf c : Int) + 2 - 4294967296) (by omega) (by omega)
      rw [hw]
      omega
    · rw [scan_of_large s c (by omega) (by omega)]
      have hs : to_size_t (int_wrap (-2147483648 + 2)) = 18446744071562067970 := by decide
      rw [hs]
      omega
  rw [split_exp_unfold, if_pos hpos]

/-- A call of `split_exp` either throws `out_of_range` or returns two strings. -/
theorem split_exp_cases (s : Str) (c : Char) :
    split_exp s c = .error .out_of_range ∨ ∃ l r, split_exp s c = .ok [l, r] := by
  rw [split_exp_unfold]
  by_cases h : to_size_t (int_wrap (scan c s 0 + 2)) > s.length
  · left
    rw [if_pos h]
  · right
    rw [if_neg h]
    exact ⟨_, _, rfl⟩

/-- The split when the separator first occurs at an index `i ≥ 1`. -/
theorem split_exp_of_pos {s : Str} {c : Char} (h1 : 1 ≤ s.indexOf c)
    (h2 : s.indexOf c + 2 ≤ s.length) (h3 : s.indexOf c + 2 ≤ 2147483647) :
    split_exp s c = .ok [s.take (s.indexOf c - 1), s.drop (s.indexOf c + 2)] := by
  rw [split_exp_eq s c h3, if_neg (by omega), to_size_t_pred_pos h1]
  have : min (s.indexOf c - 1) s.length = s.indexOf c - 1 := by omega
  rw [this]

/-- The split around a separator padded by one character on each side. -/
theorem split_exp_padded (L R : Str) (c p q : Char) (hc : c ∉ L) (hp : p ≠ c)
    (hlen : L.length + 3 ≤ 2147483647) :
    split_exp (L ++ p :: c :: q :: R) c = .ok [L, R] := by
  have hidx : (L ++ p :: c :: q :: R).indexOf c = L.length + 1 := by
    rw [List.indexOf_append_of_not_mem hc, List.indexOf_cons_ne _ hp, List.indexOf_cons_self]
  rw [split_exp_of_pos (by omega) (by simp [hidx]; omega) (by omega), hidx]
  have hd : List.drop (L.length + 1 + 2) (L ++ p :: c :: q :: R) = R := by
    rw [Nat.add_assoc, List.drop_append]
    rfl
  simp [hd]

/-- The split around a padded separator that lies too far for the `int` counter. -/
theorem split_exp_padded_overflow (L R : Str) (c p q : Char) (hc : c ∉ L) (hp : p ≠ c)
    (hlen : 2147483647 < L.length + 3)
    (hn : (L ++ p :: c :: q :: R).length < 9223372036854775808) :
    split_exp (L ++ p :: c :: q :: R) c = .error .out_of_range := by
  have hidx : (L ++ p :: c :: q :: R).indexOf c = L.length + 1 := by
    rw [List.indexOf_append_of_not_mem hc, List.indexOf_cons_ne _ hp, List.indexOf_cons_self]
  exact split_exp_overflow _ c (by omega) hn

/-! ## Lemmas on `stoi` -/

theorem accumulate_foldl (ds : Str) (acc : Nat) :
    ds.foldl (fun a d => a * 10 + (d.toNat - 48)) acc
      = acc * 10 ^ ds.length + decimal_value ds := by
  induction ds generalizing acc with
  | nil => simp [decimal_value]
  | cons x rest ih =>
    rw [List.foldl_cons, ih]
    simp only [decimal_value, List.reverse_cons, List.map_append, List.map_cons, List.map_nil,
      Nat.ofDigits_append, Nat.ofDigits_singleton, List.length_map, List.length_reverse,
      List.length_cons]
    ring

theorem accumulate_eq_decimal_value (ds : Str) : accumulate ds = decimal_value ds := by
  simp [accumulate, accumulate_foldl]

theorem head?_dropWhile_ne {t : Str} {p : Char → Bool} {c : Char} (h : c ∉ t) :
    (t.dropWhile p).head? ≠ some c := by
  intro hh
  have h1 : c ∈ t.dropWhile p := List.mem_of_mem_head? (by simp [hh])
  exact h ((List.dropWhile_sublist p).subset h1)

/-- The value of `stoi` on a token that contains no sign character. -/
theorem stoi_unsigned {t : Str} (hplus : '+' ∉ t) (hminus : '-' ∉ t) :
    stoi t =
      if leading_digits t = [] then .error .invalid_argument
      else if 2147483647 < accumulate (leading_digits t) then .error .out_of_range
      else .ok (accumulate (leading_digits t) : Int) := by
  have h1 : (t.dropWhile isspace).head? ≠ some '-' := head?_dropWhile_ne hminus
  have h2 : (t.dropWhile isspace).head? ≠ some '+' := head?_dropWhile_ne hplus
  simp only [stoi, leading_digits, h1, h2, or_self, if_false, decide_False, Bool.false_eq_true]
  by_cases hd : List.takeWhile isdigit (List.dropWhile isspace t) = []
  · simp [hd]
  · simp only [hd, if_false]
    have hnn : ¬ ((accumulate (List.takeWhile isdigit (List.dropWhile isspace t)) : Int)
        < -2147483648) := by omega
    by_cases hr : 2147483647 < accumulate (List.takeWhile isdigit (List.dropWhile isspace t))
    · have hr2 : (2147483647 : Int)
          < (accumulate (List.takeWhile isdigit (List.dropWhile isspace t)) : Int) := by
        omega
      simp [hr, hr2]
    · have hr2 : ¬ ((2147483647 : Int)
          < (accumulate (List.takeWhile isdigit (List.dropWhile isspace t)) : Int)) := by
        omega
      simp [hr, hr2, hnn]

theorem isdigit_not_isspace {c : Char} (h : isdigit c = true) : isspace c = false := by
  simp only [isdigit, Bool.and_eq_true, decide_eq_true_eq] at h
  have hne : c ≠ ' ' := by
    rintro rfl
    exact absurd h.1 (by decide)
  simp only [isspace, hne, decide_False, Bool.false_or, Bool.and_eq_false_imp,
    decide_eq_true_eq, decide_eq_false_iff_not]
  omega

theorem not_mem_of_not_isdigit {t : Str} {c : Char} (ht : ∀ ch ∈ t, isdigit ch = true)
    (hc : isdigit c = false) : c ∉ t := by
  intro hmem
  rw [ht c hmem] at hc
  exact Bool.noConfusion hc

theorem leading_digits_of_isDigits {t : Str} (ht : IsDigits t) : leading_digits t = t := by
  obtain ⟨hne, hall⟩ := ht
  have hdrop : t.dropWhile isspace = t := by
    cases t with
    | nil => rfl
    | cons x rest =>
      have := isdigit_not_isspace (hall x (List.mem_cons_self _ _))
      simp [List.dropWhile_cons, this]
  rw [leading_digits, hdrop]
  exact List.takeWhile_eq_self_iff.mpr hall

/-- On a non-empty string of digits `stoi` yields its decimal value when that is at
most `2147483647`, and throws `out_of_range` otherwise. -/
theorem stoi_of_isDigits {t : Str} (ht : IsDigits t) :
    stoi t = if 2147483647 < decimal_value t then .error .out_of_range
      else .ok (decimal_value t : Int) := by
  rw [stoi_unsigned (not_mem_of_not_isdigit ht.2 (by decide))
    (not_mem_of_not_isdigit ht.2 (by decide)), leading_digits_of_isDigits ht,
    if_neg ht.1, accumulate_eq_decimal_value]

theorem stoi_ne_index (t : Str) : stoi t ≠ .error .index_out_of_bounds := by
  simp only [stoi]
  split_ifs <;> simp

/-! ## Lemmas on the loop of `solution` -/

theorem equation_eq (A : Str) (op : Char) (B C : Str) :
    equation A op B C = (A ++ ' ' :: op :: ' ' :: B) ++ ' ' :: '=' :: ' ' :: C := by
  simp [equation]

/-- The loop body on an expression `"A op B = C"` whose operand tokens contain no
`=` and no operator character: the splits isolate the three tokens. -/
theorem loop_body_equation (A B C : Str) (op : Char) (hop : op = '+' ∨ op = '-')
    (hA : '=' ∉ A ∧ '+' ∉ A ∧ '-' ∉ A) (hB : '=' ∉ B ∧ '+' ∉ B)
    (hlen : A.length + B.length + 6 ≤ 2147483647) :
    loop_body (equation A op B C) =
      (stoi A).bind fun first => (stoi B).bind fun second => (stoi C).bind fun result =>
        .ok ⟨[A ++ ' ' :: op :: ' ' :: B, C], [A, B], op, first, second, result⟩ := by
  have hop_ne : op ≠ '=' := by
    rcases hop with rfl | rfl <;> decide
  have hL : '=' ∉ A ++ ' ' :: op :: ' ' :: B := by
    simp [hA.1, hB.1, Ne.symm hop_ne]
  have hparts := split_exp_padded (A ++ ' ' :: op :: ' ' :: B) C '=' ' ' ' ' hL (by decide)
    (by simp; omega)
  have hleft : split_left (A ++ ' ' :: op :: ' ' :: B) = (.ok [A, B], op) := by
    rcases hop with rfl | rfl
    · have hf : find_ne_npos (A ++ ' ' :: '+' :: ' ' :: B) '+' = true := by
        simp [find_ne_npos]
      simp only [split_left, hf, if_true]
      rw [split_exp_padded A B '+' ' ' ' ' hA.2.1 (by decide) (by omega)]
    · have hf : find_ne_npos (A ++ ' ' :: '-' :: ' ' :: B) '+' = false := by
        simp [find_ne_npos, hA.2.1, hB.2]
      simp only [split_left, hf, Bool.false_eq_true, if_false]
      rw [split_exp_padded A B '-' ' ' ' ' hA.2.2 (by decide) (by omega)]
  simp only [loop_body, equation_eq, hparts, bind, Except.bind, at_index, hleft,
    List.getElem?_cons_zero, List.getElem?_cons_succ, pure, Except.pure]

/-- The loop body on an expression `"A op B = C"` whose `=` lies too far for the `int`
counter: the first split throws. -/
theorem loop_body_equation_overflow (A B C : Str) (op : Char) (hop : op = '+' ∨ op = '-')
    (hA : '=' ∉ A) (hB : '=' ∉ B) (hlen : 2147483647 < A.length + B.length + 6)
    (hn : A.length + B.length + C.length + 6 < 9223372036854775808) :
    loop_body (equation A op B C) = .error .out_of_range := by
  have hop_ne : op ≠ '=' := by
    rcases hop with rfl | rfl <;> decide
  have hL : '=' ∉ A ++ ' ' :: op :: ' ' :: B := by
    simp [hA, hB, Ne.symm hop_ne]
  have hparts := split_exp_padded_overflow (A ++ ' ' :: op :: ' ' :: B) C '=' ' ' ' ' hL
    (by decide) (by simp; omega) (by simp; omega)
  simp only [loop_body, equation_eq, hparts, bind, Except.bind]

theorem solution_loop_ok (xs answer : List Str) (h : ∀ x ∈ xs, ∃ l, loop_body x = .ok l) :
    solution_loop xs answer = .ok answer := by
  induction xs with
  | nil => rfl
  | cons x rest ih =>
    obtain ⟨l, hl⟩ := h x (List.mem_cons_self _ _)
    simp only [solution_loop, hl, bind, Except.bind]
    exact ih fun y hy => h y (List.mem_cons_of_mem _ hy)

theorem loop_body_wellFormed {A B C : Str} {op : Char} (hop : op = '+' ∨ op = '-')
    (hA : IsDigits A) (hB : IsDigits B) (hC : IsDigits C)
    (vA : decimal_value A ≤ 2147483647) (vB : decimal_value B ≤ 2147483647)
    (vC : decimal_value C ≤ 2147483647) (hlen : A.length + B.length + 6 ≤ 2147483647) :
    loop_body (equation A op B C) =
      .ok ⟨[A ++ ' ' :: op :: ' ' :: B, C], [A, B], op,
        decimal_value A, decimal_value B, decimal_value C⟩ := by
  rw [loop_body_equation A B C op hop
    ⟨not_mem_of_not_isdigit hA.2 (by decide), not_mem_of_not_isdigit hA.2 (by decide),
      not_mem_of_not_isdigit hA.2 (by decide)⟩
    ⟨not_mem_of_not_isdigit hB.2 (by decide), not_mem_of_not_isdigit hB.2 (by decide)⟩
    hlen,
    stoi_of_isDigits hA, stoi_of_isDigits hB, stoi_of_isDigits hC,
    if_neg (by omega), if_neg (by omega), if_neg (by omega)]
  rfl

theorem solution_loop_result (xs answer r : List Str)
    (h : solution_loop xs answer = .ok r) : r = answer := by
  induction xs with
  | nil =>
    simp only [solution_loop] at h
    exact (Except.ok.inj h).symm
  | cons x rest ih =>
    simp only [solution_loop, bind, Except.bind] at h
    cases hx : loop_body x with
    | error e => simp [hx] at h
    | ok l =>
      rw [hx] at h
      exact ih h

/-- A failure of one iteration is the failure of the loop from there on. -/
theorem solution_loop_error (x : Str) (rest answer : List Str) (e : Err)
    (h : loop_body x = .error e) : solution_loop (x :: rest) answer = .error e := by
  simp only [solution_loop, h, bind, Except.bind]

theorem loop_body_split_error (ex : Str) (e : Err) (h : split_exp ex '=' = .error e) :
    loop_body ex = .error e := by
  simp only [loop_body, h, bind, Except.bind]

theorem split_left_cases (p0 : Str) :
    (split_left p0).1 = .error .out_of_range ∨ ∃ l r, (split_left p0).1 = .ok [l, r] := by
  unfold split_left
  split
  · exact split_exp_cases p0 '+'
  · exact split_exp_cases p0 '-'

theorem loop_body_ne_index (ex : Str) : loop_body ex ≠ .error .index_out_of_bounds := by
  rcases split_exp_cases ex '=' with h | ⟨l, r, h⟩
  · rw [loop_body_split_error ex _ h]
    simp
  · rcases split_left_cases l with h2 | ⟨a, b, h2⟩
    · simp [loop_body, h, bind, Except.bind, at_index, h2]
    · simp only [loop_body, h, bind, Except.bind, at_index, h2, List.getElem?_cons_zero,
        List.getElem?_cons_succ]
      have ha := stoi_ne_index a
      have hb := stoi_ne_index b
      have hr := stoi_ne_index r
      cases hsa : stoi a with
      | error e => rw [hsa] at ha; simpa using ha
      | ok va =>
        cases hsb : stoi b with
        | error e => rw [hsb] at hb; simpa using hb
        | ok vb =>
          cases hsr : stoi r with
          | error e => rw [hsr] at hr; simpa using hr
          | ok vr => simp [pure, Except.pure]

theorem solution_loop_ne_index (xs answer : List Str) :
    solution_loop xs answer ≠ .error .index_out_of_bounds := by
  induction xs with
  | nil => simp [solution_loop]
  | cons x rest ih =>
    cases hx : loop_body x with
    | error e =>
      rw [solution_loop_error x rest answer e hx]
      have := loop_body_ne_index x
      rw [hx] at this
      intro hh
      apply this
      rw [Except.error.inj hh]
    | ok l =>
      simp only [solution_loop, hx, bind, Except.bind]
      exact ih

/-! ## Lemmas on long inputs -/

theorem ne_ok_of_eq_error {ε α : Type} {x : Except ε α} {e : ε} (h : x = .error e) (v : α) :
    x ≠ .ok v := by
  rw [h]
  exact fun hh => Except.noConfusion hh

theorem ne_error_of_eq_error {ε α : Type} {x : Except ε α} {e1 e2 : ε} (h : x = .error e1)
    (hne : e1 ≠ e2) : x ≠ .error e2 := by
  rw [h]
  exact fun hh => hne (Except.error.inj hh)

theorem length_repeated (n : Nat) (ch : Char) : (repeated n ch).length = n := by
  simp [repeated]

theorem not_mem_repeated {n : Nat} {a c : Char} (h : c ≠ a) : c ∉ repeated n a := by
  intro hm
  exact h (List.eq_of_mem_replicate hm)

theorem isDigits_repeated {n : Nat} {d : Char} (hn : 0 < n) (hd : isdigit d = true) :
    IsDigits (repeated n d) := by
  constructor
  · intro h
    have := congrArg List.length h
    rw [length_repeated] at this
    simp at this
    omega
  · intro ch hch
    rw [List.eq_of_mem_replicate hch]
    exact hd

theorem decimal_value_zeros (n : Nat) : decimal_value (repeated n '0') = 0 := by
  have h : ∀ m : Nat, Nat.ofDigits 10 (List.replicate m 0) = 0 := by
    intro m
    induction m with
    | zero => rfl
    | succ k ih => rw [List.replicate_succ, Nat.ofDigits_cons, ih]
  simp only [decimal_value, repeated, List.reverse_replicate, List.map_replicate]
  exact h n

/-- A string of `n` characters `a` followed by `=bc`, with `n + 2` beyond the range of
`int`: the first `=` is at index `n`, two characters follow it, and the split throws. -/
theorem far_separator (n : Nat) (hn : 2147483647 < n + 2)
    (hlen : n + 3 < 9223372036854775808) :
    (repeated n 'a' ++ "=bc".toList)[n]? = some '=' ∧
    (∀ j, j < n → (repeated n 'a' ++ "=bc".toList)[j]? ≠ some '=') ∧
    n + 2 ≤ (repeated n 'a' ++ "=bc".toList).length ∧
    List.indexOf '=' (repeated n 'a' ++ "=bc".toList) = n ∧
    ¬ (List.indexOf '=' (repeated n 'a' ++ "=bc".toList) + 2 >
        (repeated n 'a' ++ "=bc".toList).length) ∧
    split_exp (repeated n 'a' ++ "=bc".toList) '=' = .error .out_of_range := by
  have hidx : List.indexOf '=' (repeated n 'a' ++ "=bc".toList) = n := by
    rw [List.indexOf_append_of_not_mem (not_mem_repeated (by decide)), length_repeated]
    rfl
  have hlength : (repeated n 'a' ++ "=bc".toList).length = n + 3 := by
    rw [List.length_append, length_repeated]
    rfl
  have hmem : '=' ∈ repeated n 'a' ++ "=bc".toList :=
    List.indexOf_lt_length.mp (by omega)
  have hfirst := firstAt_indexOf hmem
  rw [hidx] at hfirst
  refine ⟨hfirst.1, hfirst.2, by omega, hidx, by omega, ?_⟩
  exact split_exp_overflow _ '=' (by omega) (by omega)

/-- A join padded by one character whose left part is too long for the `int` counter. -/
theorem padded_join_overflow (n : Nat) (hn : 2147483647 < n + 3)
    (hlen : n + 4 < 9223372036854775808) :
    split_exp (repeated n 'a' ++ [' '] ++ ['='] ++ [' '] ++ "c".toList) '=' =
        .error .out_of_range ∧
    split_exp (repeated n 'a' ++ " = ".toList ++ "c".toList) '=' = .error .out_of_range := by
  have h := split_exp_padded_overflow (repeated n 'a') "c".toList '=' ' ' ' '
    (not_mem_repeated (by decide)) (by decide) (by rw [length_repeated]; omega)
    (by
      rw [List.length_append, length_repeated]
      simp
      omega)
  constructor
  · simpa using h
  · simpa using h

theorem solution_singleton (x : Str) :
    solution [x] = (loop_body x).bind fun _ => .ok [] := rfl

/-- An equation of digit tokens whose `=` lies too far for the `int` counter. -/
theorem equation_overflow (A B C : Str) (op : Char) (hop : op = '+' ∨ op = '-')
    (hA : IsDigits A) (hB : IsDigits B) (hlen : 2147483647 < A.length + B.length + 6)
    (hn : A.length + B.length + C.length + 6 < 9223372036854775808) :
    loop_body (equation A op B C) = .error .out_of_range ∧
    solution [equation A op B C] = .error .out_of_range := by
  have h := loop_body_equation_overflow A B C op hop
    (not_mem_of_not_isdigit hA.2 (by decide)) (not_mem_of_not_isdigit hB.2 (by decide))
    hlen hn
  refine ⟨h, ?_⟩
  rw [solution_singleton, h]
  rfl

/-! ## Properties of `split_exp` -/

/-- C1 (as stated, refuted): in the string of `2147483646` characters `a` followed by
`=bc` the first `=` is at the index `i = 2147483646`, with `1 ≤ i` and `i + 2 ≤ |s|`, yet
`split_exp` does not return the two substrings: `i + 2` overflows the `int` counter, the
start position of the right part wraps to a `size_t` beyond the end of the string and
`substr` throws `out_of_range`. -/
theorem far_separator_throws :
    (repeated 2147483646 'a' ++ "=bc".toList)[2147483646]? = some '=' ∧
    (∀ j, j < 2147483646 → (repeated 2147483646 'a' ++ "=bc".toList)[j]? ≠ some '=') ∧
    1 ≤ 2147483646 ∧
    2147483646 + 2 ≤ (repeated 2147483646 'a' ++ "=bc".toList).length ∧
    split_exp (repeated 2147483646 'a' ++ "=bc".toList) '=' = .error .out_of_range ∧
    split_exp (repeated 2147483646 'a' ++ "=bc".toList) '=' ≠
      .ok [(repeated 2147483646 'a' ++ "=bc".toList).take (2147483646 - 1),
           (repeated 2147483646 'a' ++ "=bc".toList).drop (2147483646 + 2)] :=
  have h := far_separator 2147483646 (by decide) (by decide)
  ⟨h.1, h.2.1, by decide, h.2.2.1, h.2.2.2.2.2, ne_ok_of_eq_error h.2.2.2.2.2 _⟩

/-- C1 (amended): when the first occurrence of the separator `c` in `s` is at an index
`i` with `1 ≤ i`, `i + 2 ≤ |s|` and `i + 2 ≤ 2147483647` (so that `i + 2` fits in an
`int`), `split_exp s c` returns the two substrings `s[0 .. i-1)` and
`s[i+2 .. |s|)`. -/
theorem split_exp_first_occurrence (s : Str) (c : Char) (i : Nat)
    (hocc : s[i]? = some c) (hfirst : ∀ j, j < i → s[j]? ≠ some c)
    (h1 : 1 ≤ i) (h2 : i + 2 ≤ s.length) (h3 : i + 2 ≤ 2147483647) :
    split_exp s c = .ok [s.take (i - 1), s.drop (i + 2)] := by
  have hidx : s.indexOf c = i := indexOf_of_firstAt ⟨hocc, hfirst⟩
  have := split_exp_of_pos (s := s) (c := c) (by omega) (by omega) (by omega)
  rw [hidx] at this
  exact this

theorem split_exp_first_occurrence_witness :
    split_exp "12+5=17".toList '+' = .ok ["1".toList, "=17".toList] :=
  split_exp_first_occurrence "12+5=17".toList '+' 2 (by decide) (by decide) (by decide)
    (by decide) (by decide)

/-- C2 (as stated, refuted): for `L` the string of `2147483645` characters `a`, which
has no `=`, and the padding `' '`, splitting `L ++ " " ++ "=" ++ " " ++ "c"` on `=` does
not give `[L, "c"]`: the `=` is at index `2147483646`, `i + 2` overflows the `int`
counter and `substr` throws `out_of_range`. -/
theorem long_left_part_throws :
    '=' ∉ repeated 2147483645 'a' ∧ ' ' ≠ '=' ∧
    split_exp (repeated 2147483645 'a' ++ [' '] ++ ['='] ++ [' '] ++ "c".toList) '=' =
      .error .out_of_range ∧
    split_exp (repeated 2147483645 'a' ++ [' '] ++ ['='] ++ [' '] ++ "c".toList) '=' ≠
      .ok [repeated 2147483645 'a', "c".toList] ∧
    split_exp (repeated 2147483645 'a' ++ " = ".toList ++ "c".toList) '=' ≠
      .ok [repeated 2147483645 'a', "c".toList] :=
  have h := padded_join_overflow 2147483645 (by decide) (by decide)
  ⟨not_mem_repeated (by decide), by decide, h.1, ne_ok_of_eq_error h.1 _,
    ne_ok_of_eq_error h.2 _⟩

/-- C2 (amended): `split_exp` undoes a join padded by one character on each side of the
separator when the left part is short enough for `int`: if `c` does not occur in `L`,
`p ≠ c` and `|L| + 3 ≤ 2147483647`, splitting `L ++ [p] ++ [c] ++ [q] ++ R` on `c` gives
`[L, R]`; in particular splitting `L ++ " = " ++ R` on `=` gives `[L, R]` when `L` has
no `=` and `|L| + 3 ≤ 2147483647`. -/
theorem split_exp_undoes_padded_join :
    (∀ (L R : Str) (c p q : Char), c ∉ L → p ≠ c → L.length + 3 ≤ 2147483647 →
      split_exp (L ++ [p] ++ [c] ++ [q] ++ R) c = .ok [L, R]) ∧
    (∀ (L R : Str), '=' ∉ L → L.length + 3 ≤ 2147483647 →
      split_exp (L ++ " = ".toList ++ R) '=' = .ok [L, R]) := by
  constructor
  · intro L R c p q hc hp hlen
    have := split_exp_padded L R c p q hc hp hlen
    simpa using this
  · intro L R hL hlen
    have := split_exp_padded L R '=' ' ' ' ' hL (by decide) hlen
    simpa using this

theorem split_exp_undoes_padded_join_witness :
    '=' ∉ "12 + 5".toList ∧
    split_exp "12 + 5 = 17".toList '=' = .ok ["12 + 5".toList, "17".toList] :=
  ⟨by decide,
    split_exp_undoes_padded_join.2 "12 + 5".toList "17".toList (by decide) (by decide)⟩

/-! ## Properties of `solution` -/

/-- C3 (as stated, refuted): with `A` the string of `2147483641` characters `0` (a
non-empty digit string of value `0`), `B = "2"` and `C = "3"`, the expression
`A ++ " + " ++ B ++ " = " ++ C` is not decomposed: its `=` is at index `2147483646`, so
the first split throws `out_of_range` and `solution` fails instead of returning. -/
theorem long_operand_throws :
    IsDigits (repeated 2147483641 '0') ∧ IsDigits "2".toList ∧ IsDigits "3".toList ∧
    decimal_value (repeated 2147483641 '0') ≤ 2147483647 ∧
    decimal_value "2".toList ≤ 2147483647 ∧ decimal_value "3".toList ≤ 2147483647 ∧
    loop_body (equation (repeated 2147483641 '0') '+' "2".toList "3".toList) =
      .error .out_of_range ∧
    solution [equation (repeated 2147483641 '0') '+' "2".toList "3".toList] =
      .error .out_of_range ∧
    ¬ ∃ answer,
      solution [equation (repeated 2147483641 '0') '+' "2".toList "3".toList] = .ok answer :=
  have hA : IsDigits (repeated 2147483641 '0') := isDigits_repeated (by decide) (by decide)
  have h := equation_overflow (repeated 2147483641 '0') "2".toList "3".toList '+'
    (by decide) hA (by decide) (by rw [length_repeated]; decide)
    (by rw [length_repeated]; decide)
  ⟨hA, by decide, by decide, by rw [decimal_value_zeros]; decide, by decide, by decide,
    h.1, h.2, fun ⟨answer, hr⟩ => ne_ok_of_eq_error h.2 answer hr⟩

/-- C3 (amended): on an expression `A ++ " " ++ [op] ++ " " ++ B ++ " = " ++ C` with `op`
one of `+`, `-`, with `A`, `B`, `C` non-empty digit strings with values that fit in a
32-bit signed `int`, and with `|A| + |B| + 6 ≤ 2147483647` (so that the index of `=`
plus `2` fits in an `int`), the loop body of `solution` ends with
`parts = [A ++ " op " ++ B, C]` (left side and result token), `left = [A, B]` (the two
operands), `adder = op`, and `first`, `second`, `result` the decimal values of `A`, `B`,
`C`; and `solution` returns normally on every sequence of such expressions. -/
theorem solution_decomposes_well_formed :
    (∀ (A B C : Str) (op : Char), (op = '+' ∨ op = '-') →
      IsDigits A → IsDigits B → IsDigits C →
      decimal_value A ≤ 2147483647 → decimal_value B ≤ 2147483647 →
      decimal_value C ≤ 2147483647 → A.length + B.length + 6 ≤ 2147483647 →
      loop_body (equation A op B C) =
        .ok { parts := [A ++ " ".toList ++ [op] ++ " ".toList ++ B, C],
              left := [A, B],
              adder := op,
              first := decimal_value A,
              second := decimal_value B,
              result := decimal_value C }) ∧
    (∀ xs : List Str, (∀ x ∈ xs, WellFormed x) → ∃ answer, solution xs = .ok answer) := by
  constructor
  · intro A B C op hop hA hB hC vA vB vC hlen
    rw [loop_body_wellFormed hop hA hB hC vA vB vC hlen]
    simp
  · intro xs hxs
    refine ⟨[], solution_loop_ok xs [] fun x hx => ?_⟩
    obtain ⟨A, B, C, op, hop, hA, hB, hC, vA, vB, vC, hlen, rfl⟩ := hxs x hx
    exact ⟨_, loop_body_wellFormed hop hA hB hC vA vB vC hlen⟩

theorem wellFormed_one_plus_two : WellFormed "1 + 2 = 3".toList :=
  ⟨"1".toList, "2".toList, "3".toList, '+', by decide, by decide, by decide, by decide,
    by decide, by decide, by decide, by decide, by decide⟩

theorem solution_decomposes_well_formed_witness :
    loop_body "1 + 2 = 3".toList =
        .ok { parts := ["1 + 2".toList, "3".toList], left := ["1".toList, "2".toList],
              adder := '+', first := 1, second := 2, result := 3 } ∧
    ∃ answer, solution ["1 + 2 = 3".toList] = .ok answer :=
  ⟨solution_decomposes_well_formed.1 "1".toList "2".toList "3".toList '+' (by decide)
      (by decide) (by decide) (by decide) (by decide) (by decide) (by decide) (by decide),
    solution_decomposes_well_formed.2 ["1 + 2 = 3".toList] (by
      intro x hx
      rw [List.mem_singleton] at hx
      subst hx
      exact wellFormed_one_plus_two)⟩

/-- C4: whenever `solution` returns normally, what it returns is the empty sequence
of strings. -/
theorem solution_result_empty (expressions r : List Str)
    (h : solution expressions = .ok r) : r = [] :=
  solution_loop_result expressions [] r h

theorem solution_result_empty_witness :
    solution ["1 + 2 = 3".toList] = .ok [] ∧ ([] : List Str) = [] :=
  ⟨by decide, solution_result_empty ["1 + 2 = 3".toList] [] (by decide)⟩

/-- C7: when `split_exp s c` returns normally its result has exactly two elements, so
the accesses at the indices `0` and `1` succeed; and no call of `solution` ever accesses
a vector outside its bounds. -/
theorem split_exp_two_elements :
    (∀ (s : Str) (c : Char) (r : List Str), split_exp s c = .ok r →
      r.length = 2 ∧ (∃ x, at_index r 0 = .ok x) ∧ (∃ y, at_index r 1 = .ok y)) ∧
    (∀ expressions : List Str, solution expressions ≠ .error .index_out_of_bounds) := by
  constructor
  · intro s c r h
    rcases split_exp_cases s c with h1 | ⟨a, b, h1⟩
    · rw [h1] at h
      exact absurd h (by simp)
    · rw [h1] at h
      have hr : r = [a, b] := (Except.ok.inj h).symm
      subst hr
      exact ⟨rfl, ⟨a, rfl⟩, ⟨b, rfl⟩⟩
  · intro expressions
    exact solution_loop_ne_index expressions []

theorem split_exp_two_elements_witness :
    split_exp "1 + 2 = 3".toList '=' = .ok ["1 + 2".toList, "3".toList] ∧
    ["1 + 2".toList, "3".toList].length = 2 ∧
    (∃ x, at_index ["1 + 2".toList, "3".toList] 0 = .ok x) ∧
    (∃ y, at_index ["1 + 2".toList, "3".toList] 1 = .ok y) :=
  ⟨by decide, split_exp_two_elements.1 "1 + 2 = 3".toList '=' _ (by decide)⟩

/-- C6 (as stated, refuted): the tokens `1a`, `2`, `3` are non-empty and free of space,
`+`, `-`, `=`, and `1a` is not made of decimal digits only, yet `solution` applied to
`"1a + 2 = 3"` returns normally instead of failing with `invalid_argument`: `stoi`
reads the leading `1` and ignores the rest of the token. -/
theorem invalid_token_accepted :
    equation "1a".toList '+' "2".toList "3".toList = "1a + 2 = 3".toList ∧
    IsToken "1a".toList ∧ IsToken "2".toList ∧ IsToken "3".toList ∧
    ¬ (∀ ch ∈ "1a".toList, isdigit ch = true) ∧
    stoi "1a".toList = .ok 1 ∧
    solution ["1a + 2 = 3".toList] = .ok [] ∧
    solution ["1a + 2 = 3".toList] ≠ .error .invalid_argument := by
  decide

/-- C6 (amended): on an expression `A ++ " " ++ [op] ++ " " ++ B ++ " = " ++ C` with `op`
one of `+`, `-`, with `A`, `B`, `C` non-empty tokens without space, `+`, `-`, `=`, and
with `|A| + |B| + 6 ≤ 2147483647` (so that the index of `=` plus `2` fits in an `int`),
`solution` fails with `invalid_argument` exactly when one of `A`, `B`, `C` does not
begin (after optional white space) with a decimal digit while every token before it, in
the order `A`, `B`, `C`, begins with a run of digits of value at most `2147483647`. -/
theorem invalid_argument_iff (A B C : Str) (op : Char) (hop : op = '+' ∨ op = '-')
    (hA : IsToken A) (hB : IsToken B) (hC : IsToken C)
    (hlen : A.length + B.length + 6 ≤ 2147483647) :
    solution [equation A op B C] = .error .invalid_argument ↔
      NoLeadingDigit A ∨ (LeadingInRange A ∧ NoLeadingDigit B) ∨
        (LeadingInRange A ∧ LeadingInRange B ∧ NoLeadingDigit C) := by
  obtain ⟨-, -, hAp, hAm, hAe⟩ := hA
  obtain ⟨-, -, hBp, hBm, hBe⟩ := hB
  obtain ⟨-, -, hCp, hCm, -⟩ := hC
  rw [solution_singleton, loop_body_equation A B C op hop ⟨hAe, hAp, hAm⟩ ⟨hBe, hBp⟩ hlen,
    stoi_unsigned hAp hAm, stoi_unsigned hBp hBm, stoi_unsigned hCp hCm]
  simp only [NoLeadingDigit, LeadingInRange, accumulate_eq_decimal_value]
  by_cases a1 : leading_digits A = []
  · simp [a1, Except.bind]
  · by_cases a2 : 2147483647 < decimal_value (leading_digits A)
    · simp [a1, a2, Except.bind]
    · by_cases b1 : leading_digits B = []
      · simp [a1, a2, b1, Except.bind, Nat.le_of_not_lt a2]
      · by_cases b2 : 2147483647 < decimal_value (leading_digits B)
        · simp [a1, a2, b1, b2, Except.bind]
        · by_cases c1 : leading_digits C = []
          · simp [a1, a2, b1, b2, c1, Except.bind, Nat.le_of_not_lt a2, Nat.le_of_not_lt b2]
          · by_cases c2 : 2147483647 < decimal_value (leading_digits C)
            · simp [a1, a2, b1, b2, c1, c2, Except.bind]
            · simp [a1, a2, b1, b2, c1, c2, Except.bind]

theorem invalid_argument_iff_witness :
    solution ["abc + 2 = 3".toList] = .error .invalid_argument :=
  (invalid_argument_iff "abc".toList "2".toList "3".toList '+' (by decide) (by decide)
    (by decide) (by decide) (by decide)).mpr
    (Or.inl (by decide : leading_digits "abc".toList = []))

/-- C8: the operator detection of `solution` prefers `+`: when the left side contains
a `+` the operands are `split_exp leftSide '+'` and the operator is `+`, also when a `-`
occurs, even earlier; when it contains no `+` they are `split_exp leftSide '-'` and the
operator is `-`; and the `-` branch is taken exactly when there is no `+`. The locals
`left` and `adder` of a completed iteration are the ones so computed from `parts[0]`. -/
theorem operator_detection_prefers_plus :
    (∀ leftSide : Str, '+' ∈ leftSide →
      split_left leftSide = (split_exp leftSide '+', '+')) ∧
    (∀ leftSide : Str, '+' ∉ leftSide →
      split_left leftSide = (split_exp leftSide '-', '-')) ∧
    (∀ leftSide : Str, (split_left leftSide).2 = '-' ↔ '+' ∉ leftSide) ∧
    (∀ (ex : Str) (loc : Locals), loop_body ex = .ok loc →
      ∃ leftSide resultToken, split_exp ex '=' = .ok [leftSide, resultToken] ∧
        loc.parts = [leftSide, resultToken] ∧
        split_left leftSide = (.ok loc.left, loc.adder)) := by
  refine ⟨?_, ?_, ?_, ?_⟩
  · intro leftSide h
    simp [split_left, find_ne_npos, h]
  · intro leftSide h
    simp [split_left, find_ne_npos, h]
  · intro leftSide
    by_cases h : '+' ∈ leftSide
    · simp [split_left, find_ne_npos, h]
    · simp [split_left, find_ne_npos, h]
  · intro ex loc h
    rcases split_exp_cases ex '=' with h1 | ⟨l, r, h1⟩
    · rw [loop_body_split_error ex _ h1] at h
      exact absurd h (by simp)
    · refine ⟨l, r, h1, ?_⟩
      rcases split_left_cases l with h2 | ⟨a, b, h2⟩
      · simp [loop_body, h1, bind, Except.bind, at_index, h2] at h
      · simp only [loop_body, h1, bind, Except.bind, at_index, h2, List.getElem?_cons_zero,
          List.getElem?_cons_succ] at h
        cases hsa : stoi a with
        | error e => simp [hsa] at h
        | ok va =>
          cases hsb : stoi b with
          | error e => simp [hsa, hsb] at h
          | ok vb =>
            cases hsr : stoi r with
            | error e => simp [hsa, hsb, hsr] at h
            | ok vr =>
              simp only [hsa, hsb, hsr, pure, Except.pure] at h
              have hloc := (Except.ok.inj h).symm
              subst hloc
              exact ⟨rfl, Prod.ext h2 rfl⟩

theorem operator_detection_prefers_plus_witness :
    ('+' ∈ "1 - 2 + 3".toList ∧ '-' ∈ "1 - 2 + 3".toList ∧
      split_left "1 - 2 + 3".toList = (.ok ["1 - 2".toList, "3".toList], '+')) ∧
    ('+' ∉ "7 - 4".toList ∧
      split_left "7 - 4".toList = (.ok ["7".toList, "4".toList], '-')) ∧
    (∃ leftSide resultToken,
      split_exp "1 + 2 = 3".toList '=' = .ok [leftSide, resultToken] ∧
      ["1 + 2".toList, "3".toList] = [leftSide, resultToken] ∧
      split_left leftSide = (.ok ["1".toList, "2".toList], '+')) :=
  ⟨⟨by decide, by decide,
      operator_detection_prefers_plus.1 "1 - 2 + 3".toList (by decide)⟩,
    ⟨by decide, operator_detection_prefers_plus.2.1 "7 - 4".toList (by decide)⟩,
    operator_detection_prefers_plus.2.2.2 "1 + 2 = 3".toList
      ⟨["1 + 2".toList, "3".toList], ["1".toList, "2".toList], '+', 1, 2, 3⟩ (by decide)⟩

/-- C10: when the separator is the first character of `s` and `|s| ≥ 2`, the length
`i - 1 = -1` passed to `substr` wraps around to `2 ^ 64 - 1` as a `size_t` and is
clamped to the length of `s` (a `std::string` is shorter than `2 ^ 64`), so the left
part is the whole of `s`: `split_exp s c = [s, s[2 .. |s|)]`. -/
theorem split_exp_separator_first (s : Str) (c : Char) (hlen : 2 ≤ s.length)
    (h0 : s[0]? = some c) (hsize : s.length < 18446744073709551616) :
    to_size_t ((scan c s 0 : Int) - 1) = 18446744073709551615 ∧
    substr s 0 18446744073709551615 = .ok s ∧
    split_exp s c = .ok [s, s.drop 2] := by
  have hidx : s.indexOf c = 0 := indexOf_of_firstAt ⟨h0, fun j hj => absurd hj (by omega)⟩
  have hmin : min 18446744073709551615 s.length = s.length := by omega
  refine ⟨?_, ?_, ?_⟩
  · rw [scan_of_small s c (by omega), hidx]
    decide
  · simp [substr, hmin]
  · rw [split_exp_eq s c (by omega), hidx, if_neg (by omega), to_size_t_pred_zero, hmin,
      List.take_length]

theorem split_exp_separator_first_witness :
    split_exp "+12".toList '+' = .ok ["+12".toList, "2".toList] :=
  (split_exp_separator_first "+12".toList '+' (by decide) (by decide) (by decide)).2.2

/-! ## The loop of `solution` over several expressions -/

theorem solution_singleton_ok_iff (x : Str) :
    (∃ r, solution [x] = .ok r) ↔ ∃ l, loop_body x = .ok l := by
  rw [solution_singleton]
  cases loop_body x with
  | error e => simp [Except.bind]
  | ok l => simp [Except.bind]

theorem solution_singleton_error_iff (x : Str) (e : Err) :
    solution [x] = .error e ↔ loop_body x = .error e := by
  rw [solution_singleton]
  cases loop_body x with
  | error e1 => simp [Except.bind]
  | ok l => simp [Except.bind]

theorem solution_loop_cons_ok (x : Str) (rest answer : List Str) (l : Locals)
    (h : loop_body x = .ok l) :
    solution_loop (x :: rest) answer = solution_loop rest answer := by
  simp only [solution_loop, h, bind, Except.bind]

/-- The loop returns exactly when every iteration does. -/
theorem solution_loop_ok_iff (xs answer : List Str) :
    (∃ r, solution_loop xs answer = .ok r) ↔ ∀ x ∈ xs, ∃ l, loop_body x = .ok l := by
  induction xs with
  | nil => simp [solution_loop]
  | cons x rest ih =>
    cases hx : loop_body x with
    | error e =>
      rw [solution_loop_error x rest answer e hx]
      constructor
      · rintro ⟨r, hr⟩
        exact absurd hr (by simp)
      · intro h
        obtain ⟨l, hl⟩ := h x (List.mem_cons_self _ _)
        rw [hx] at hl
        exact absurd hl (by simp)
    | ok l =>
      rw [solution_loop_cons_ok x rest answer l hx, ih]
      constructor
      · intro h y hy
        rcases List.mem_cons.mp hy with rfl | hy
        · exact ⟨l, hx⟩
        · exact h y hy
      · intro h y hy
        exact h y (List.mem_cons_of_mem _ hy)

/-- The loop fails with `e` exactly when some iteration fails with `e` and all the
iterations before it return. -/
theorem solution_loop_error_iff (xs answer : List Str) (e : Err) :
    solution_loop xs answer = .error e ↔
      ∃ pre x post, xs = pre ++ x :: post ∧ (∀ y ∈ pre, ∃ l, loop_body y = .ok l) ∧
        loop_body x = .error e := by
  induction xs with
  | nil =>
    constructor
    · intro h
      simp [solution_loop] at h
    · rintro ⟨pre, x, post, h, -⟩
      simp at h
  | cons x rest ih =>
    cases hx : loop_body x with
    | error e1 =>
      rw [solution_loop_error x rest answer e1 hx]
      constructor
      · intro h
        refine ⟨[], x, rest, rfl, fun y hy => absurd hy (List.not_mem_nil y), ?_⟩
        rw [hx, Except.error.inj h]
      · rintro ⟨pre, x1, post, h, hpre, hx1⟩
        cases pre with
        | nil =>
          simp only [List.nil_append, List.cons.injEq] at h
          rw [← h.1, hx] at hx1
          rw [Except.error.inj hx1]
        | cons y pre1 =>
          simp only [List.cons_append, List.cons.injEq] at h
          obtain ⟨l, hl⟩ := hpre y (List.mem_cons_self _ _)
          rw [← h.1, hx] at hl
          exact absurd hl (by simp)
    | ok l =>
      rw [solution_loop_cons_ok x rest answer l hx, ih]
      constructor
      · rintro ⟨pre, x1, post, h, hpre, hx1⟩
        refine ⟨x :: pre, x1, post, by rw [h]; rfl, fun y hy => ?_, hx1⟩
        rcases List.mem_cons.mp hy with rfl | hy
        · exact ⟨l, hx⟩
        · exact hpre y hy
      · rintro ⟨pre, x1, post, h, hpre, hx1⟩
        cases pre with
        | nil =>
          simp only [List.nil_append, List.cons.injEq] at h
          rw [← h.1, hx] at hx1
          exact absurd hx1 (by simp)
        | cons y pre1 =>
          simp only [List.cons_append, List.cons.injEq] at h
          exact ⟨pre1, x1, post, h.2, fun z hz => hpre z (List.mem_cons_of_mem _ hz), hx1⟩

/-- C11: the expressions are processed one by one, in order, and the first failure
ends the call: `solution xs` returns normally if and only if `solution [x]` returns
normally for every `x` of `xs`; and `solution xs` fails with the error `e` if and only if
`xs` has an element `x` with `solution [x]` failing with `e` while `solution [y]` returns
normally for every element `y` before `x` (so `x` is the first element on which the
singleton call fails). -/
theorem solution_first_failure :
    (∀ xs : List Str,
      (∃ r, solution xs = .ok r) ↔ ∀ x ∈ xs, ∃ r, solution [x] = .ok r) ∧
    (∀ (xs : List Str) (e : Err),
      solution xs = .error e ↔
        ∃ pre x post, xs = pre ++ x :: post ∧ (∀ y ∈ pre, ∃ r, solution [y] = .ok r) ∧
          solution [x] = .error e) := by
  constructor
  · intro xs
    simp only [solution_singleton_ok_iff]
    exact solution_loop_ok_iff xs []
  · intro xs e
    simp only [solution_singleton_ok_iff, solution_singleton_error_iff]
    exact solution_loop_error_iff xs [] e

theorem solution_first_failure_witness :
    solution ["1 + 2 = 3".toList, "abc + 2 = 3".toList, "12 + 5".toList]
        = .error .invalid_argument ∧
    solution ["1 + 2 = 3".toList] = .ok [] ∧
    solution ["abc + 2 = 3".toList] = .error .invalid_argument ∧
    solution ["12 + 5".toList] = .error .out_of_range :=
  ⟨(solution_first_failure.2
      ["1 + 2 = 3".toList, "abc + 2 = 3".toList, "12 + 5".toList] .invalid_argument).mpr
      ⟨["1 + 2 = 3".toList], "abc + 2 = 3".toList, ["12 + 5".toList], by decide,
        fun y hy => ⟨[], by rw [List.mem_singleton.mp hy]; decide⟩, by decide⟩,
    by decide, by decide, by decide⟩

/-! ## A negative first operand -/

/-- The split when the separator is the first character. -/
theorem split_exp_at_zero (c : Char) (rest : Str) (h1 : 1 ≤ rest.length)
    (hsize : (c :: rest).length < 18446744073709551616) :
    split_exp (c :: rest) c = .ok [c :: rest, rest.drop 1] := by
  have hmin : min 18446744073709551615 (c :: rest).length = (c :: rest).length := by omega
  have hlen : ¬ (0 + 2 > (c :: rest).length) := by
    simp only [List.length_cons]
    omega
  rw [split_exp_eq _ c (by rw [List.indexOf_cons_self]; omega), List.indexOf_cons_self,
    if_neg hlen, to_size_t_pred_zero, hmin, List.take_length]
  rfl

theorem negative_left_side_eq (A B : Str) :
    negative_left_side A B = '-' :: (A ++ ' ' :: '-' :: ' ' :: B) := by
  simp [negative_left_side]

theorem negative_equation_eq (A B C : Str) :
    negative_equation A B C = negative_left_side A B ++ ' ' :: '=' :: ' ' :: C := by
  simp [negative_equation, negative_left_side]

theorem split_left_negative (A B : Str) (hA : IsDigits A) (hB : IsDigits B)
    (hsize : A.length + B.length + 4 < 18446744073709551616) :
    split_left (negative_left_side A B) =
      (.ok [negative_left_side A B, (negative_left_side A B).drop 2], '-') := by
  have hAp : '+' ∉ A := not_mem_of_not_isdigit hA.2 (by decide)
  have hBp : '+' ∉ B := not_mem_of_not_isdigit hB.2 (by decide)
  have hf : find_ne_npos (negative_left_side A B) '+' = false := by
    simp [find_ne_npos, negative_left_side_eq, hAp, hBp]
  simp only [split_left, hf, Bool.false_eq_true, if_false]
  rw [negative_left_side_eq, split_exp_at_zero '-' _ (by simp; omega) (by simp; omega)]
  rfl

theorem loop_body_negative (A B C : Str) (hA : IsDigits A) (hB : IsDigits B)
    (hlen : A.length + B.length + 7 ≤ 2147483647) :
    split_exp (negative_equation A B C) '=' = .ok [negative_left_side A B, C] ∧
    loop_body (negative_equation A B C) =
      (stoi (negative_left_side A B)).bind fun first =>
        (stoi ((negative_left_side A B).drop 2)).bind fun second =>
          (stoi C).bind fun result =>
            .ok ⟨[negative_left_side A B, C],
              [negative_left_side A B, (negative_left_side A B).drop 2], '-',
              first, second, result⟩ := by
  have hAe : '=' ∉ A := not_mem_of_not_isdigit hA.2 (by decide)
  have hBe : '=' ∉ B := not_mem_of_not_isdigit hB.2 (by decide)
  have hL : '=' ∉ negative_left_side A B := by
    simp [negative_left_side_eq, hAe, hBe]
  have hparts := split_exp_padded (negative_left_side A B) C '=' ' ' ' ' hL (by decide)
    (by simp [negative_left_side_eq]; omega)
  rw [← negative_equation_eq] at hparts
  refine ⟨hparts, ?_⟩
  simp only [loop_body, hparts, bind, Except.bind, at_index,
    split_left_negative A B hA hB (by omega),
    List.getElem?_cons_zero, List.getElem?_cons_succ, pure, Except.pure]

/-- The loop body on `"-A - B = C"` when the `=` lies too far for the `int` counter: the
first split throws. -/
theorem negative_equation_overflow (A B C : Str) (hA : IsDigits A) (hB : IsDigits B)
    (hlen : 2147483647 < A.length + B.length + 7)
    (hn : A.length + B.length + C.length + 7 < 9223372036854775808) :
    split_exp (negative_equation A B C) '=' = .error .out_of_range ∧
    solution [negative_equation A B C] = .error .out_of_range := by
  have hAe : '=' ∉ A := not_mem_of_not_isdigit hA.2 (by decide)
  have hBe : '=' ∉ B := not_mem_of_not_isdigit hB.2 (by decide)
  have hL : '=' ∉ negative_left_side A B := by
    simp [negative_left_side_eq, hAe, hBe]
  have hparts := split_exp_padded_overflow (negative_left_side A B) C '=' ' ' ' ' hL
    (by decide) (by simp [negative_left_side_eq]; omega)
    (by simp [negative_left_side_eq]; omega)
  rw [← negative_equation_eq] at hparts
  exact ⟨hparts, solution_loop_error _ [] [] _ (loop_body_split_error _ _ hparts)⟩

theorem isdigit_toNat {d : Char} (hd : isdigit d = true) : 48 ≤ d.toNat ∧ d.toNat ≤ 57 := by
  simpa [isdigit] using hd

/-- A sign, one digit, then a space: `stoi` yields the negated digit. -/
theorem stoi_minus_digit (d : Char) (hd : isdigit d = true) (rest : Str) :
    stoi ('-' :: d :: ' ' :: rest) = .ok (-((d.toNat - 48 : Nat) : Int)) := by
  have h1 := isdigit_toNat hd
  have hs : isspace '-' = false := by decide
  have hsp : isdigit ' ' = false := by decide
  have hlo : ¬ (-((d.toNat - 48 : Nat) : Int) < -2147483648) := by omega
  have hhi : ¬ ((2147483647 : Int) < -((d.toNat - 48 : Nat) : Int)) := by omega
  simp [stoi, hs, hd, hsp, accumulate, hlo, hhi]

/-- A sign that is followed by a space: `stoi` finds no digit. -/
theorem stoi_space_minus_space (rest : Str) :
    stoi (' ' :: '-' :: ' ' :: rest) = .error .invalid_argument := by
  have hs : isspace ' ' = true := by decide
  have hm : isspace '-' = false := by decide
  have hsp : isdigit ' ' = false := by decide
  simp [stoi, hs, hm, hsp]

/-- C12 (as stated, refuted): with `A = "3"`, `B` the string of `2147483640` characters
`5` and `C = "8"`, the expression `"-" ++ A ++ " - " ++ B ++ " = " ++ C` has its `=` at
index `2147483646`, so the split on `=` throws `out_of_range`: no operand split takes
place and, although `A` is a single digit, `solution` fails with `out_of_range`, not with
`invalid_argument`. -/
theorem long_negative_equation_throws :
    IsDigits "3".toList ∧ IsDigits (repeated 2147483640 '5') ∧ '=' ∉ "8".toList ∧
    "3".toList.length = 1 ∧
    split_exp (negative_equation "3".toList (repeated 2147483640 '5') "8".toList) '=' =
      .error .out_of_range ∧
    solution [negative_equation "3".toList (repeated 2147483640 '5') "8".toList] =
      .error .out_of_range ∧
    solution [negative_equation "3".toList (repeated 2147483640 '5') "8".toList] ≠
      .error .invalid_argument :=
  have hB : IsDigits (repeated 2147483640 '5') := isDigits_repeated (by decide) (by decide)
  have h := negative_equation_overflow "3".toList (repeated 2147483640 '5') "8".toList
    (by decide) hB (by rw [length_repeated]; decide) (by rw [length_repeated]; decide)
  ⟨by decide, hB, by decide, by decide, h.1, h.2, ne_error_of_eq_error h.2 (by decide)⟩

/-- C12 (amended): on an expression `"-" ++ A ++ " - " ++ B ++ " = " ++ C` with `A`, `B`
non-empty strings of decimal digits and `|A| + |B| + 7 ≤ 2147483647` (so that the index
of `=` plus `2` fits in an `int`; `C` is any string, in particular one without `=`), the
split on `=` gives the left side `"-A - B"` and `C`; the operand split is on `-` and
stops at the leading sign, at index `0`, so the first operand token is the whole left
side and the second one is the left side without its first two characters, which is not
`B`; these are the tokens the loop body passes to `stoi`. When `A` is a single digit the
second token is `" - " ++ B` and `solution` fails with `invalid_argument`. -/
theorem negative_first_operand_mis_split (A B C : Str) (hA : IsDigits A) (hB : IsDigits B)
    (hlen : A.length + B.length + 7 ≤ 2147483647) :
    split_exp (negative_equation A B C) '=' = .ok [negative_left_side A B, C] ∧
    scan '-' (negative_left_side A B) 0 = 0 ∧
    split_left (negative_left_side A B) =
      (.ok [negative_left_side A B, (negative_left_side A B).drop 2], '-') ∧
    (negative_left_side A B).drop 2 ≠ B ∧
    loop_body (negative_equation A B C) =
      ((stoi (negative_left_side A B)).bind fun first =>
        (stoi ((negative_left_side A B).drop 2)).bind fun second =>
          (stoi C).bind fun result =>
            .ok { parts := [negative_left_side A B, C],
                  left := [negative_left_side A B, (negative_left_side A B).drop 2],
                  adder := '-', first := first, second := second, result := result }) ∧
    (A.length = 1 →
      (negative_left_side A B).drop 2 = " - ".toList ++ B ∧
      solution [negative_equation A B C] = .error .invalid_argument) := by
  obtain ⟨hparts, hbody⟩ := loop_body_negative A B C hA hB hlen
  refine ⟨hparts, ?_, split_left_negative A B hA hB (by omega), ?_, hbody, ?_⟩
  · have hidx : List.indexOf '-' (negative_left_side A B) = 0 := by
      rw [negative_left_side_eq, List.indexOf_cons_self]
    rw [scan_of_small _ _ (by omega), hidx]
    rfl
  · intro h
    have hlen := congrArg List.length h
    simp [negative_left_side_eq] at hlen
    omega
  · intro h1
    obtain ⟨d, rfl⟩ := List.length_eq_one.mp h1
    have hd : isdigit d = true := hA.2 d (List.mem_singleton.mpr rfl)
    have hdrop : (negative_left_side [d] B).drop 2 = ' ' :: '-' :: ' ' :: B := by
      simp [negative_left_side_eq]
    refine ⟨by rw [hdrop]; rfl, ?_⟩
    rw [solution_singleton, hbody, hdrop, stoi_space_minus_space]
    have hfirst : stoi (negative_left_side [d] B) = .ok (-((d.toNat - 48 : Nat) : Int)) := by
      rw [negative_left_side_eq]
      exact stoi_minus_digit d hd _
    rw [hfirst]
    rfl

theorem negative_first_operand_mis_split_witness :
    negative_equation "3".toList "5".toList "-8".toList = "-3 - 5 = -8".toList ∧
    split_exp "-3 - 5 = -8".toList '=' = .ok ["-3 - 5".toList, "-8".toList] ∧
    split_left "-3 - 5".toList = (.ok ["-3 - 5".toList, " - 5".toList], '-') ∧
    solution ["-3 - 5 = -8".toList] = .error .invalid_argument :=
  ⟨by decide,
    (negative_first_operand_mis_split "3".toList "5".toList "-8".toList (by decide)
      (by decide) (by decide)).1,
    (negative_first_operand_mis_split "3".toList "5".toList "-8".toList (by decide)
      (by decide) (by decide)).2.2.1,
    ((negative_first_operand_mis_split "3".toList "5".toList "-8".toList (by decide)
      (by decide) (by decide)).2.2.2.2.2 (by decide)).2⟩

/-- C13 (as stated, refuted): with `A = "1"`, `B` the string of `2147483641` characters
`0` (of value `0`) and `C = "1"`, all three values are at most `2147483647`, yet
`solution` does not return normally on `A ++ " - " ++ B ++ " = " ++ C`: the `=` is at
index `2147483646` and the first split throws `out_of_range`. -/
theorem long_zero_operand_throws :
    IsDigits "1".toList ∧ IsDigits (repeated 2147483641 '0') ∧
    (decimal_value "1".toList ≤ 2147483647 ∧
      decimal_value (repeated 2147483641 '0') ≤ 2147483647 ∧
      decimal_value "1".toList ≤ 2147483647) ∧
    solution [equation "1".toList '-' (repeated 2147483641 '0') "1".toList] =
      .error .out_of_range ∧
    ¬ ∃ r, solution [equation "1".toList '-' (repeated 2147483641 '0') "1".toList] = .ok r :=
  have hB : IsDigits (repeated 2147483641 '0') := isDigits_repeated (by decide) (by decide)
  have h := equation_overflow "1".toList (repeated 2147483641 '0') "1".toList '-'
    (by decide) (by decide) hB (by rw [length_repeated]; decide)
    (by rw [length_repeated]; decide)
  ⟨by decide, hB, ⟨by decide, by rw [decimal_value_zeros]; decide, by decide⟩, h.2,
    fun ⟨r, hr⟩ => ne_ok_of_eq_error h.2 r hr⟩

/-- C13 (amended): on an expression `A ++ " " ++ [op] ++ " " ++ B ++ " = " ++ C` with `op`
one of `+`, `-`, with `A`, `B`, `C` non-empty strings of decimal digits, and with
`|A| + |B| + 6 ≤ 2147483647` (so that the index of `=` plus `2` fits in an `int`),
`solution` returns normally if and only if the values of `A`, `B` and `C` are all at most
`2147483647`; otherwise it fails with the `out_of_range` error of `stoi`. -/
theorem int_range_decides_success (A B C : Str) (op : Char) (hop : op = '+' ∨ op = '-')
    (hA : IsDigits A) (hB : IsDigits B) (hC : IsDigits C)
    (hlen : A.length + B.length + 6 ≤ 2147483647) :
    ((∃ r, solution [equation A op B C] = .ok r) ↔
      (decimal_value A ≤ 2147483647 ∧ decimal_value B ≤ 2147483647 ∧
        decimal_value C ≤ 2147483647)) ∧
    (¬ (decimal_value A ≤ 2147483647 ∧ decimal_value B ≤ 2147483647 ∧
        decimal_value C ≤ 2147483647) →
      solution [equation A op B C] = .error .out_of_range) := by
  have hbody := loop_body_equation A B C op hop
    ⟨not_mem_of_not_isdigit hA.2 (by decide), not_mem_of_not_isdigit hA.2 (by decide),
      not_mem_of_not_isdigit hA.2 (by decide)⟩
    ⟨not_mem_of_not_isdigit hB.2 (by decide), not_mem_of_not_isdigit hB.2 (by decide)⟩
    hlen
  rw [solution_singleton, hbody, stoi_of_isDigits hA, stoi_of_isDigits hB,
    stoi_of_isDigits hC]
  by_cases a : 2147483647 < decimal_value A
  · simp [a, Except.bind]
  · by_cases b : 2147483647 < decimal_value B
    · simp [a, b, Except.bind]
    · by_cases c : 2147483647 < decimal_value C
      · simp [a, b, c, Except.bind]
      · simp [a, b, c, Except.bind, Nat.le_of_not_lt a, Nat.le_of_not_lt b,
          Nat.le_of_not_lt c]

theorem int_range_decides_success_witness :
    equation "2147483648".toList '+' "0".toList "1".toList = "2147483648 + 0 = 1".toList ∧
    ¬ (decimal_value "2147483648".toList ≤ 2147483647 ∧
        decimal_value "0".toList ≤ 2147483647 ∧ decimal_value "1".toList ≤ 2147483647) ∧
    solution ["2147483648 + 0 = 1".toList] = .error .out_of_range :=
  ⟨by decide, by decide,
    (int_range_decides_success "2147483648".toList "0".toList "1".toList '+' (by decide)
      (by decide) (by decide) (by decide) (by decide)).2 (by decide)⟩

end SplitExp
